import Mathlib

set_option maxRecDepth 100000

/-!
Verification of the evernote-mcp repository against its specification.

The repository's ENML converter module (`evernote_mcp/util/enml_converter.py`)
is exercised by `tests/test_enml_converter.py` but its implementation file is
not part of the source tree available here; following the specification
(spec.md sections 3, 4.1, 4.2, 4.3, 8, 9), the converter entry points
`enml_to_text`, `enml_to_markdown` and `text_to_enml` are modelled below from
the spec's words.  The error handler (`evernote_mcp/util/error_handler.py`)
and the validators (`evernote_mcp/util/validators.py`) are present in the
source tree and are embedded from the source.
-/

namespace EvernoteMcp

/-- Whitespace as collapsed by the converter (space, tab, newline, carriage
return), spec section 4.1 step 3. -/
def isWs (c : Char) : Bool :=
  c = ' ' || c = '\t' || c = '\n' || c = '\r'

/-- Modelled from the spec: section 4.1 step 1 of `enml_to_text` removes
every tag (opening, closing, self-closing) regardless of name.  The state
machine scans the character list; `none` means outside a tag, `some acc`
means inside a tag with `acc` holding (reversed) the characters consumed
since the opening angle bracket.  Each completed tag leaves a single space
as a whitespace boundary — spec section 4.1 step 3 speaks of whitespace
"produced by removed block tags", and section 8 round-trip containment
requires removed tags not to glue adjacent text runs together.  An
unterminated fragment is restored literally at the end of input (best-effort
degradation, spec sections 4.1 and 4.2). -/
def stripGo : List Char → Option (List Char) → List Char
  | [], none => []
  | [], some acc => acc.reverse
  | c :: cs, none =>
      if c = '<' then stripGo cs (some ['<']) else c :: stripGo cs none
  | c :: cs, some acc =>
      if c = '>' then ' ' :: stripGo cs none else stripGo cs (some (c :: acc))

/-- Simulation of `stripGo` on a finite segment: returns the output produced
for the segment together with the scanner state reached at its end.  Used to
compose `stripGo` across list concatenation. -/
def stripRun : List Char → Option (List Char) → List Char × Option (List Char)
  | [], st => ([], st)
  | c :: cs, none =>
      if c = '<' then stripRun cs (some ['<'])
      else ((c :: (stripRun cs none).1), (stripRun cs none).2)
  | c :: cs, some acc =>
      if c = '>' then ((' ' :: (stripRun cs none).1), (stripRun cs none).2)
      else stripRun cs (some (c :: acc))

/-- Modelled from the spec: section 4.1 step 2, decoding of the standard
XML entities back to literal characters, in a single left-to-right pass. -/
def decodeEnt : List Char → List Char
  | [] => []
  | c :: cs =>
      if c = '&' then
        match cs with
        | 'a' :: 'm' :: 'p' :: ';' :: rest => '&' :: decodeEnt rest
        | 'l' :: 't' :: ';' :: rest => '<' :: decodeEnt rest
        | 'g' :: 't' :: ';' :: rest => '>' :: decodeEnt rest
        | 'q' :: 'u' :: 'o' :: 't' :: ';' :: rest => '"' :: decodeEnt rest
        | [] => [c]
        | d :: rest => c :: decodeEnt (d :: rest)
      else c :: decodeEnt cs

/-- Modelled from the spec: section 4.1 step 3, collapsing every run of
whitespace into a single space.  The boolean state records whether the
previously emitted character was (collapsed) whitespace. -/
def collapseGo : Bool → List Char → List Char
  | _, [] => []
  | prev, c :: cs =>
      if isWs c then
        (if prev then collapseGo true cs else ' ' :: collapseGo true cs)
      else c :: collapseGo false cs

/-- Right trim: removes trailing whitespace (spec section 4.1 step 4). -/
def trimR : List Char → List Char
  | [] => []
  | c :: cs =>
      if trimR cs = [] && isWs c then [] else c :: trimR cs

/-- Both-ends trim (spec section 4.1 step 4): trailing then leading
whitespace removal. -/
def trimEnds (l : List Char) : List Char :=
  (trimR l).dropWhile isWs

/-- Modelled from the spec: `markup_to_text` (named `enml_to_text` in the
repository), spec section 4.1 — remove every tag, decode entities, collapse
whitespace runs to single spaces, strip leading and trailing whitespace. -/
def enml_to_text (markup : String) : String :=
  String.mk (trimEnds (collapseGo false (decodeEnt (stripGo markup.data none))))

/-- Whitespace normalization alone (collapse runs, strip ends), the
comparison relation used by the spec's round-trip containment property
(spec section 8). -/
def normalizeWS (s : String) : String :=
  String.mk (trimEnds (collapseGo false s.data))

/-- Modelled from the spec: section 4.3 step 1, escaping of the reserved
characters to their entity forms. -/
def escChar (c : Char) : List Char :=
  if c = '&' then "&amp;".data
  else if c = '<' then "&lt;".data
  else if c = '>' then "&gt;".data
  else if c = '"' then "&quot;".data
  else [c]

/-- Escape every character of a text (spec section 4.3 step 1). -/
def escape (l : List Char) : List Char :=
  (l.map escChar).flatten

/-- Modelled from the spec: section 4.3 step 2, conversion of each newline
boundary to an explicit line-break element. -/
def nlToBr : List Char → List Char
  | [] => []
  | c :: cs => if c = '\n' then "<br/>".data ++ nlToBr cs else c :: nlToBr cs

/-- The fixed XML declaration (spec section 4.3 step 3, test
`test_includes_xml_declaration`). -/
def XML_DECL : String := "<?xml version=\"1.0\" encoding=\"UTF-8\"?>"

/-- The fixed doctype declaration (spec section 4.3 step 3, test
`test_includes_doctype`). -/
def DOCTYPE_DECL : String :=
  "<!DOCTYPE en-note SYSTEM \"http://xml.evernote.com/pub/enml2.dtd\">"

/-- The declaration/doctype preamble preceding the root element. -/
def ENML_PREAMBLE : String := XML_DECL ++ "\n" ++ DOCTYPE_DECL ++ "\n"

/-- Modelled from the spec: `text_to_markup` (named `text_to_enml` in the
repository), spec section 4.3 — escape reserved characters, convert newlines
to break elements, wrap in the root element under the fixed preamble.  The
`title` parameter is accepted but does not change the structural output
(spec section 4.3 step 4). -/
def text_to_enml (text : String) (_title : Option String := none) : String :=
  ENML_PREAMBLE ++ "<en-note>" ++ String.mk (nlToBr (escape text.data)) ++ "</en-note>"

/-- Split a list at the first occurrence of a pattern: returns the part
before the occurrence and the part after it, or `none` when the pattern
does not occur.  Substrate for the substitution rules of spec section 4.2. -/
def splitOnPat (pat : List Char) : List Char → Option (List Char × List Char)
  | [] => if pat = [] then some ([], []) else none
  | c :: cs =>
      if pat.isPrefixOf (c :: cs) then some ([], (c :: cs).drop pat.length)
      else
        match splitOnPat pat cs with
        | some (a, b) => some (c :: a, b)
        | none => none

/-- Substring containment test: the pattern occurs contiguously in the
list. -/
def containsSub (pat l : List Char) : Bool :=
  (splitOnPat pat l).isSome

/-- Skip to just after the next closing angle bracket, or `none` if there is
none; used to consume the attribute part of a recognized element. -/
def dropThroughGt : List Char → Option (List Char)
  | [] => none
  | c :: cs => if c = '>' then some cs else dropThroughGt cs

/-- Replace every occurrence of a fixed pattern by a fixed replacement
(spec section 4.2: substitution applied over the whole string).  The fuel
argument bounds the number of scanning steps; callers pass the input length,
which suffices because every step consumes at least one character. -/
def replacePat (pat repl : List Char) : Nat → List Char → List Char
  | 0, l => l
  | _ + 1, [] => []
  | fuel + 1, c :: cs =>
      if pat.isPrefixOf (c :: cs) && !pat.isEmpty then
        repl ++ replacePat pat repl fuel ((c :: cs).drop pat.length)
      else c :: replacePat pat repl fuel cs

/-- Rewrite every `opn … cls` pair into `pre … post`, keeping the enclosed
content (spec section 4.2 rows for bold, italic, underline).  Mirrors a
non-greedy pattern substitution: the content runs to the nearest closing
tag and is not reprocessed by the same rule. -/
def subPair (opn cls pre post : List Char) : Nat → List Char → List Char
  | 0, l => l
  | _ + 1, [] => []
  | fuel + 1, c :: cs =>
      if opn.isPrefixOf (c :: cs) then
        match splitOnPat cls ((c :: cs).drop opn.length) with
        | some (content, rest) =>
            pre ++ content ++ post ++ subPair opn cls pre post fuel rest
        | none => c :: subPair opn cls pre post fuel cs
      else c :: subPair opn cls pre post fuel cs

/-- Rewrite every element opening with `opn` (attributes allowed, consumed
through the next closing angle bracket) into a fixed replacement (spec
section 4.2 rows for the checklist marker and the media placeholder).
The checked and the unchecked checklist states both hit the same rule, so
both render as the unchecked marker (spec section 4.2 open question). -/
def subSelfClose (opn repl : List Char) : Nat → List Char → List Char
  | 0, l => l
  | _ + 1, [] => []
  | fuel + 1, c :: cs =>
      if opn.isPrefixOf (c :: cs) then
        match dropThroughGt ((c :: cs).drop opn.length) with
        | some rest => repl ++ subSelfClose opn repl fuel rest
        | none => c :: subSelfClose opn repl fuel cs
      else c :: subSelfClose opn repl fuel cs

/-- Rewrite every encrypted-content element, dropping its payload (spec
section 4.2 row for the encrypted-content placeholder). -/
def subCrypt : Nat → List Char → List Char
  | 0, l => l
  | _ + 1, [] => []
  | fuel + 1, c :: cs =>
      if "<en-crypt".data.isPrefixOf (c :: cs) then
        match dropThroughGt ((c :: cs).drop 9) with
        | some r1 =>
            match splitOnPat ("</en-crypt>".data) r1 with
            | some (_, r2) => "[Encrypted]".data ++ subCrypt fuel r2
            | none => c :: subCrypt fuel cs
        | none => c :: subCrypt fuel cs
      else c :: subCrypt fuel cs

/-- Rewrite every hyperlink with an href and a label into the Markdown link
form (spec section 4.2 row for hyperlinks). -/
def subLink : Nat → List Char → List Char
  | 0, l => l
  | _ + 1, [] => []
  | fuel + 1, c :: cs =>
      if "<a href=\"".data.isPrefixOf (c :: cs) then
        match splitOnPat ['"'] ((c :: cs).drop 9) with
        | some (url, r1) =>
            match dropThroughGt r1 with
            | some r2 =>
                match splitOnPat ("</a>".data) r2 with
                | some (label, r3) =>
                    '[' :: label ++ ']' :: '(' :: url ++ ')' :: subLink fuel r3
                | none => c :: subLink fuel cs
            | none => c :: subLink fuel cs
        | none => c :: subLink fuel cs
      else c :: subLink fuel cs

/-- Modelled from the spec: `markup_to_markdown` (named `enml_to_markdown`
in the repository), spec section 4.2 — sequential pattern substitution of
the per-tag rewrite table, then removal of remaining (unrecognized) tags,
entity decoding and trimming, exactly as in the plain-text direction. -/
def enml_to_markdown (markup : String) : String :=
  let l0 := markup.data
  let l1 := subCrypt l0.length l0
  let l2 := subSelfClose ("<en-todo".data) ("- [ ] ".data) l1.length l1
  let l3 := subSelfClose ("<en-media".data) ("[Media]".data) l2.length l2
  let l4 := subLink l3.length l3
  let l5 := subPair ("<b>".data) ("</b>".data) ("**".data) ("**".data) l4.length l4
  let l6 := subPair ("<strong>".data) ("</strong>".data) ("**".data) ("**".data) l5.length l5
  let l7 := subPair ("<i>".data) ("</i>".data) ("*".data) ("*".data) l6.length l6
  let l8 := subPair ("<em>".data) ("</em>".data) ("*".data) ("*".data) l7.length l7
  let l9 := subPair ("<u>".data) ("</u>".data) ("_".data) ("_".data) l8.length l8
  let l10 := replacePat ("<br/>".data) ['\n'] l9.length l9
  let l11 := replacePat ("<br>".data) ['\n'] l10.length l10
  let l12 := replacePat ("</div>".data) ['\n'] l11.length l11
  String.mk (trimEnds (decodeEnt (stripGo l12 none)))

/-- Replace a newline by a space, keep every other character: the effect of
the whole `text_to_enml`-then-`enml_to_text` pipeline on a line boundary. -/
def nlmap (c : Char) : Char :=
  if c = '\n' then ' ' else c

/-- Number of positions at which the pattern occurs in the list. -/
def countPat (pat : List Char) : List Char → Nat
  | [] => 0
  | c :: cs => (if pat.isPrefixOf (c :: cs) then 1 else 0) + countPat pat cs

/-- The characters of the line-break element `<br/>`. -/
def brPat : List Char := ['<', 'b', 'r', '/', '>']

/-- Number of occurrences of a character in the list. -/
def countChar (a : Char) : List Char → Nat
  | [] => 0
  | c :: cs => (if c = a then 1 else 0) + countChar a cs

/-- Checker ensuring no break-element occurrence can start inside the list:
every opening angle bracket is followed, inside the list, by a character
other than the letter starting the break-element name. -/
def brSafe : List Char → Bool
  | [] => true
  | c :: l =>
      if c = '<' then
        match l with
        | [] => false
        | d :: _ => decide (d ≠ 'b') && brSafe l
      else brSafe l

/-- The first character, if any, is not whitespace. -/
def firstNonWsB : List Char → Bool
  | [] => true
  | c :: _ => !isWs c

/-- Whitespace-normal form: every whitespace character is a plain space and
no two whitespace characters are adjacent — the shape `collapseGo`
produces. -/
def wsNorm : List Char → Bool
  | [] => true
  | [c] => !isWs c || (c == ' ')
  | c :: d :: l => (!isWs c || (c == ' ')) && !(isWs c && isWs d) && wsNorm (d :: l)

/-- Block containers nested to a given depth around fixed content (spec
section 8 nesting-invariance scenario). -/
def nestDiv : Nat → String
  | 0 => "Nested"
  | n + 1 => "<div>" ++ nestDiv n ++ "</div>"

/-- A complete markup document with the fixed content nested below the root
element at a given block depth. -/
def nestedDoc (n : Nat) : String :=
  "<en-note>" ++ nestDiv n ++ "</en-note>"

/-! ## Error handler (embedded from `evernote_mcp/util/error_handler.py`) -/

/-- Python regex class `\s` (ASCII part), as used by the redaction patterns. -/
def isSpaceRe (c : Char) : Bool :=
  c = ' ' || c = '\t' || c = '\n' || c = '\r' || c = '\x0b' || c = '\x0c'

/-- Character class `[:\s]` of the optional `token` prefix in the auth-token
pattern. -/
def isColonSpace (c : Char) : Bool :=
  c = ':' || isSpaceRe c

/-- Character class `[\w:/=+-]` of the auth-token pattern
`S=[\w:/=+-]+` (ASCII part of `\w`). -/
def isTokenChar (c : Char) : Bool :=
  c.isAlphanum || c = '_' || c = ':' || c = '/' || c = '=' || c = '+' || c = '-'

/-- Character class `[^\s'"]` of the redacted value parts. -/
def isValChar (c : Char) : Bool :=
  !(isSpaceRe c || c = Char.ofNat 39 || c = '"')

/-- Case-insensitive literal-prefix match (the redaction regexes carry the
IGNORECASE flag); the pattern is given in lowercase, the rest of the input
after the match is returned. -/
def ciPrefix : List Char → List Char → Option (List Char)
  | [], l => some l
  | _ :: _, [] => none
  | p :: ps, c :: cs => if c.toLower = p then ciPrefix ps cs else none

/-- Match `S=[\w:/=+-]+` (case-insensitively) at the head of the input,
returning the rest after the maximal token-character run. -/
def matchSeq (l : List Char) : Option (List Char) :=
  match l with
  | s :: '=' :: c :: rest =>
      if s.toLower = 's' && isTokenChar c then some ((c :: rest).dropWhile isTokenChar)
      else none
  | _ => none

/-- First redaction pass of `_redact_sensitive_info`:
`re.sub(r'(token[:\s]*)?S=[\w:/=+-]+', '[REDACTED]', message)` with
IGNORECASE — every auth-token occurrence, with its optional `token…` prefix,
is replaced by the fixed marker. -/
def redactS : Nat → List Char → List Char
  | 0, l => l
  | _ + 1, [] => []
  | fuel + 1, c :: cs =>
      match ciPrefix ("token".data) (c :: cs) with
      | some r1 =>
          match matchSeq (r1.dropWhile isColonSpace) with
          | some rest => "[REDACTED]".data ++ redactS fuel rest
          | none =>
              match matchSeq (c :: cs) with
              | some rest => "[REDACTED]".data ++ redactS fuel rest
              | none => c :: redactS fuel cs
      | none =>
          match matchSeq (c :: cs) with
          | some rest => "[REDACTED]".data ++ redactS fuel rest
          | none => c :: redactS fuel cs

/-- Optional value part `([:\s][^\s'"]+)?` following a matched keyword:
consume a separator and the maximal value run when present. -/
def kwValueRest (r : List Char) : List Char :=
  match r with
  | d :: e :: rest =>
      if (d = ':' || isSpaceRe d) && isValChar e then (e :: rest).dropWhile isValChar
      else r
  | _ => r

/-- Alternation `(password|secret|api_key)` (case-insensitive) at the head
of the input: returns the matched keyword as written plus the rest after the
optional value part. -/
def matchKwAny (l : List Char) : Option (List Char × List Char) :=
  match ciPrefix ("password".data) l with
  | some r => some (l.take 8, kwValueRest r)
  | none =>
      match ciPrefix ("secret".data) l with
      | some r => some (l.take 6, kwValueRest r)
      | none =>
          match ciPrefix ("api_key".data) l with
          | some r => some (l.take 7, kwValueRest r)
          | none => none

/-- Second redaction pass of `_redact_sensitive_info`:
`re.sub(r'(?i)(password|secret|api_key)([:\s][^\s\'"]+)?', r'\1: [REDACTED]', …)`. -/
def redactKws : Nat → List Char → List Char
  | 0, l => l
  | _ + 1, [] => []
  | fuel + 1, c :: cs =>
      match matchKwAny (c :: cs) with
      | some (orig, rest) =>
          orig ++ ':' :: ' ' :: "[REDACTED]".data ++ redactKws fuel rest
      | none => c :: redactKws fuel cs

/-- Alternation `(auth\s*token|bearer\s*token)` (case-insensitive) at the
head of the input: returns the rest after the keyword part. -/
def matchAuthAny (l : List Char) : Option (List Char) :=
  match ciPrefix ("auth".data) l with
  | some r1 =>
      match ciPrefix ("token".data) (r1.dropWhile isSpaceRe) with
      | some r2 => some r2
      | none =>
          match ciPrefix ("bearer".data) l with
          | some r3 => ciPrefix ("token".data) (r3.dropWhile isSpaceRe)
          | none => none
  | none =>
      match ciPrefix ("bearer".data) l with
      | some r3 => ciPrefix ("token".data) (r3.dropWhile isSpaceRe)
      | none => none

/-- Optional value part `([:\s=][^\s'"]+)?` of the third redaction pass. -/
def authValueRest (r : List Char) : List Char :=
  match r with
  | d :: e :: rest =>
      if (d = ':' || d = '=' || isSpaceRe d) && isValChar e then
        (e :: rest).dropWhile isValChar
      else r
  | _ => r

/-- Third redaction pass of `_redact_sensitive_info`:
`re.sub(r'(?i)(auth\s*token|bearer\s*token)([:\s=][^\s\'"]+)?', r'\1: [REDACTED]', …)`. -/
def redactAuth : Nat → List Char → List Char
  | 0, l => l
  | _ + 1, [] => []
  | fuel + 1, c :: cs =>
      match matchAuthAny (c :: cs) with
      | some rest =>
          (c :: cs).take ((c :: cs).length - rest.length) ++
            ':' :: ' ' :: "[REDACTED]".data ++ redactAuth fuel (authValueRest rest)
      | none => c :: redactAuth fuel cs

/-- `_redact_sensitive_info` from `error_handler.py`: the three sequential
pattern substitutions scrubbing credential-like substrings. -/
def _redact_sensitive_info (message : String) : String :=
  let l1 := redactS message.data.length message.data
  let l2 := redactKws l1.length l1
  let l3 := redactAuth l2.length l2
  String.mk l3

/-- EDAM error code `BAD_DATA_FORMAT` (external SDK constant). -/
def BAD_DATA_FORMAT : Nat := 2
/-- EDAM error code `PERMISSION_DENIED` (external SDK constant). -/
def PERMISSION_DENIED : Nat := 3
/-- EDAM error code `DATA_REQUIRED` (external SDK constant). -/
def DATA_REQUIRED : Nat := 5
/-- EDAM error code `LIMIT_REACHED` (external SDK constant). -/
def LIMIT_REACHED : Nat := 6
/-- EDAM error code `QUOTA_REACHED` (external SDK constant). -/
def QUOTA_REACHED : Nat := 7
/-- EDAM error code `INVALID_AUTH` (external SDK constant). -/
def INVALID_AUTH : Nat := 8
/-- EDAM error code `AUTH_EXPIRED` (external SDK constant). -/
def AUTH_EXPIRED : Nat := 9
/-- EDAM error code `DATA_CONFLICT` (external SDK constant). -/
def DATA_CONFLICT : Nat := 10
/-- EDAM error code `ENML_VALIDATION` (external SDK constant). -/
def ENML_VALIDATION : Nat := 11
/-- EDAM error code `RATE_LIMIT_REACHED` (external SDK constant). -/
def RATE_LIMIT_REACHED : Nat := 19

/-- The exception taxonomy dispatched on by `handle_evernote_error`:
user-level and system-level service exceptions, the not-found exception,
and any other exception (carrying its `str(e)` rendering). -/
inductive EvernoteException where
  | user (errorCode : Nat) (parameter : Option String)
  | system (errorCode : Nat) (message : String)
  | notFound (identifier : String)
  | generic (message : String)
deriving DecidableEq, Repr

/-- The uniform error envelope built by `handle_evernote_error`:
`success` is always `False`, `error` carries the message, `error_code` is
present only in the user/system branches. -/
structure ErrorEnvelope where
  success : Bool
  error : String
  error_code : Option Nat
deriving DecidableEq, Repr

/-- `_get_edam_user_error_message` from `error_handler.py`: the fixed
code-to-message table with the `Unknown error` fallback; the exception's
`parameter` is deliberately not included. -/
def _get_edam_user_error_message (errorCode : Nat) : String :=
  if errorCode = BAD_DATA_FORMAT then "Invalid data format"
  else if errorCode = DATA_CONFLICT then "Data conflict - resource already exists"
  else if errorCode = DATA_REQUIRED then "Required data is missing"
  else if errorCode = ENML_VALIDATION then "Invalid note content format"
  else if errorCode = LIMIT_REACHED then "Account limit reached"
  else if errorCode = QUOTA_REACHED then "Upload quota reached"
  else if errorCode = PERMISSION_DENIED then "Permission denied"
  else if errorCode = AUTH_EXPIRED then "Authentication token expired"
  else if errorCode = INVALID_AUTH then "Invalid authentication token"
  else "Unknown error (code: " ++ toString errorCode ++ ")"

/-- `handle_evernote_error` from `error_handler.py`: converts each
exception kind to the standardized envelope.  Note that the not-found
branch interpolates the identifier without passing it through
`_redact_sensitive_info`, exactly as in the source. -/
def handle_evernote_error (e : EvernoteException) : ErrorEnvelope :=
  match e with
  | .user code _param =>
      { success := false
        error := _redact_sensitive_info (_get_edam_user_error_message code)
        error_code := some code }
  | .system code msg =>
      { success := false
        error := _redact_sensitive_info ("System error: " ++ msg)
        error_code := some code }
  | .notFound ident =>
      { success := false
        error := "Resource not found: " ++ ident
        error_code := none }
  | .generic msg =>
      { success := false
        error := _redact_sensitive_info msg
        error_code := none }

/-! ## Validators (embedded from `evernote_mcp/util/validators.py`) -/

/-- `MAX_LIMIT` from `validators.py`. -/
def MAX_LIMIT : Int := 250

/-- `validate_limit` from `validators.py`: raises `ValidationError` (here:
returns `Except.error` with the same message) when the limit is below 1 or
above `MAX_LIMIT`, and returns normally otherwise. -/
def validate_limit (limit : Int) : Except String Unit :=
  if limit < 1 then Except.error "Limit must be at least 1"
  else if limit > MAX_LIMIT then
    Except.error ("Limit too large (max " ++ toString MAX_LIMIT ++ ")")
  else Except.ok ()

end EvernoteMcp

namespace EvernoteMcp

/-! ## Lemmas about the tag scanner -/

theorem stripGo_cons_ne (c : Char) (l : List Char) (h : c ≠ '<') :
    stripGo (c :: l) none = c :: stripGo l none := by
  simp [stripGo, h]

theorem stripRun_spec :
    ∀ (m : List Char) (st : Option (List Char)) (rest : List Char),
    (stripRun m st).2 = none →
    stripGo (m ++ rest) st = (stripRun m st).1 ++ stripGo rest none := by
  intro m
  induction m with
  | nil =>
      intro st rest h
      cases st with
      | none => simp [stripRun]
      | some acc => simp [stripRun] at h
  | cons c cs ih =>
      intro st rest h
      cases st with
      | none =>
          by_cases hc : c = '<'
          · subst hc
            simp only [stripRun, if_pos rfl] at h
            simp only [List.cons_append, stripGo, if_pos rfl]
            simpa [stripRun] using ih (some ['<']) rest h
          · simp only [stripRun, if_neg hc] at h
            simp only [List.cons_append, stripGo, if_neg hc, stripRun]
            simp [if_neg hc, ih none rest h]
      | some acc =>
          by_cases hc : c = '>'
          · subst hc
            simp only [stripRun, if_pos rfl] at h
            simp only [List.cons_append, stripGo, if_pos rfl, stripRun]
            simp [ih none rest h]
          · simp only [stripRun, if_neg hc] at h ⊢
            simp only [List.cons_append, stripGo, if_neg hc]
            exact ih (some (c :: acc)) rest h

theorem strip_id_no_lt :
    ∀ m : List Char, (∀ c ∈ m, c ≠ '<') → stripGo m none = m := by
  intro m
  induction m with
  | nil => intro _; rfl
  | cons c cs ih =>
      intro h
      rw [stripGo_cons_ne c cs (h c (by simp))]
      rw [ih (fun x hx => h x (by simp [hx]))]

example : (stripRun ("<en-note>".data) none).2 = none := by decide
example : (stripRun ("<en-note>".data) none).1 = [' '] := by decide

/-! ## Lemmas about entity decoding -/

theorem decodeEnt_cons_ne (c : Char) (l : List Char) (h : c ≠ '&') :
    decodeEnt (c :: l) = c :: decodeEnt l := by
  rw [decodeEnt.eq_def]
  simp [h]

theorem decode_id_no_amp :
    ∀ m : List Char, (∀ c ∈ m, c ≠ '&') → decodeEnt m = m := by
  intro m
  induction m with
  | nil => intro _; rfl
  | cons c cs ih =>
      intro h
      rw [decodeEnt_cons_ne c cs (h c (by simp))]
      rw [ih (fun x hx => h x (by simp [hx]))]

/-! ## Lemmas about whitespace collapsing and trimming -/

theorem isWs_space : isWs ' ' = true := rfl

theorem isWs_nl : isWs '\n' = true := rfl

theorem collapse_dichotomy (l : List Char) :
    collapseGo false l = collapseGo true l ∨
    collapseGo false l = ' ' :: collapseGo true l := by
  cases l with
  | nil => left; rfl
  | cons c cs =>
      by_cases hw : isWs c = true
      · right; simp [collapseGo, hw]
      · left; simp [collapseGo, hw]

theorem collapse_nonws_append :
    ∀ (m X : List Char), (∀ c ∈ m, isWs c = false) →
    collapseGo false (m ++ X) = m ++ collapseGo false X := by
  intro m
  induction m with
  | nil => intro X _; rfl
  | cons c cs ih =>
      intro X h
      have hc : isWs c = false := h c (by simp)
      simp [collapseGo, hc, ih X (fun x hx => h x (by simp [hx]))]

theorem collapse_true_rep :
    ∀ (k : Nat) (X : List Char),
    collapseGo true (List.replicate k ' ' ++ X) = collapseGo true X := by
  intro k
  induction k with
  | zero => intro X; rfl
  | succ n ih => intro X; simp [List.replicate_succ, collapseGo, isWs_space, ih X]

theorem collapse_trailing :
    ∀ (l : List Char) (b : Bool),
    collapseGo b (l ++ [' ']) = collapseGo b l ++ [' '] ∨
    collapseGo b (l ++ [' ']) = collapseGo b l := by
  intro l
  induction l with
  | nil =>
      intro b
      cases b
      · left; simp [collapseGo, isWs_space]
      · right; simp [collapseGo, isWs_space]
  | cons c cs ih =>
      intro b
      by_cases hw : isWs c = true
      · cases b
        · rcases ih true with h | h
          · left; simp [collapseGo, hw, h]
          · right; simp [collapseGo, hw, h]
        · rcases ih true with h | h
          · left; simp [collapseGo, hw, h]
          · right; simp [collapseGo, hw, h]
      · rcases ih false with h | h
        · left; simp [collapseGo, hw, h]
        · right; simp [collapseGo, hw, h]

theorem collapse_map_nl :
    ∀ (l : List Char) (b : Bool), collapseGo b (l.map nlmap) = collapseGo b l := by
  intro l
  induction l with
  | nil => intro b; rfl
  | cons c cs ih =>
      intro b
      by_cases hn : c = '\n'
      · subst hn
        simp [nlmap, collapseGo, isWs_space, isWs_nl, ih]
      · by_cases hw : isWs c = true
        · simp [nlmap, hn, collapseGo, hw, ih]
        · simp [nlmap, hn, collapseGo, hw, ih]

theorem trimR_append_ws (l : List Char) (c : Char) (h : isWs c = true) :
    trimR (l ++ [c]) = trimR l := by
  induction l with
  | nil => simp [trimR, h]
  | cons d ds ih => simp [trimR, ih]

theorem trimEnds_ws_cons (c : Char) (l : List Char) (h : isWs c = true) :
    trimEnds (c :: l) = trimEnds l := by
  unfold trimEnds
  by_cases h0 : trimR l = []
  · simp [trimR, h0, h]
  · simp [trimR, h0, h, List.dropWhile]

theorem trimEnds_append_ws (l : List Char) (c : Char) (h : isWs c = true) :
    trimEnds (l ++ [c]) = trimEnds l := by
  unfold trimEnds
  rw [trimR_append_ws l c h]

theorem trimR_trimR : ∀ l : List Char, trimR (trimR l) = trimR l := by
  intro l
  induction l with
  | nil => rfl
  | cons c cs ih =>
      by_cases h0 : trimR cs = []
      · by_cases hw : isWs c = true
        · simp [trimR, h0, hw]
        · simp [trimR, h0, hw]
      · simp [trimR, h0, ih]

theorem dropWhile_ws_idem (l : List Char) :
    (l.dropWhile isWs).dropWhile isWs = l.dropWhile isWs := by
  induction l with
  | nil => rfl
  | cons c cs ih =>
      by_cases hw : isWs c = true
      · simp [List.dropWhile, hw, ih]
      · simp [List.dropWhile, hw]

theorem trimR_dropWhile_comm :
    ∀ l : List Char, trimR (l.dropWhile isWs) = (trimR l).dropWhile isWs := by
  intro l
  induction l with
  | nil => rfl
  | cons c cs ih =>
      by_cases hw : isWs c = true
      · by_cases h0 : trimR cs = []
        · simp [List.dropWhile, hw, trimR, h0, ih]
        · simp [List.dropWhile, hw, trimR, h0, ih]
      · simp [List.dropWhile, hw, trimR]

theorem trimEnds_idem (l : List Char) : trimEnds (trimEnds l) = trimEnds l := by
  unfold trimEnds
  rw [trimR_dropWhile_comm, trimR_trimR, dropWhile_ws_idem]

/-! ## Lemmas about escaping and line-break insertion -/

theorem nlToBr_cons_ne (c : Char) (l : List Char) (h : c ≠ '\n') :
    nlToBr (c :: l) = c :: nlToBr l := by
  simp [nlToBr, h]

theorem nlToBr_append (a b : List Char) : nlToBr (a ++ b) = nlToBr a ++ nlToBr b := by
  induction a with
  | nil => rfl
  | cons c cs ih =>
      by_cases hc : c = '\n'
      · subst hc; simp [nlToBr, ih]
      · simp [nlToBr, hc, ih]

theorem nlToBr_no_nl (m : List Char) (h : ∀ c ∈ m, c ≠ '\n') : nlToBr m = m := by
  induction m with
  | nil => rfl
  | cons c cs ih =>
      rw [nlToBr_cons_ne c cs (h c (by simp))]
      rw [ih (fun x hx => h x (by simp [hx]))]

theorem escape_cons (c : Char) (l : List Char) :
    escape (c :: l) = escChar c ++ escape l := by
  simp [escape]

theorem escape_id_no_special :
    ∀ l : List Char, (∀ c ∈ l, c ≠ '&' ∧ c ≠ '<' ∧ c ≠ '>' ∧ c ≠ '"') → escape l = l := by
  intro l
  induction l with
  | nil => intro _; rfl
  | cons c cs ih =>
      intro h
      obtain ⟨h1, h2, h3, h4⟩ := h c (by simp)
      rw [escape_cons, ih (fun x hx => h x (by simp [hx]))]
      simp [escChar, h1, h2, h3, h4]

theorem escChar_chunk (c : Char) (hc : c ≠ '\n') :
    ∀ x ∈ escChar c, x ≠ '\n' ∧ x ≠ '<' := by
  intro x hx
  unfold escChar at hx
  by_cases h1 : c = '&'
  · rw [if_pos h1] at hx
    exact (by decide : ∀ y ∈ "&amp;".data, y ≠ '\n' ∧ y ≠ '<') x hx
  · rw [if_neg h1] at hx
    by_cases h2 : c = '<'
    · rw [if_pos h2] at hx
      exact (by decide : ∀ y ∈ "&lt;".data, y ≠ '\n' ∧ y ≠ '<') x hx
    · rw [if_neg h2] at hx
      by_cases h3 : c = '>'
      · rw [if_pos h3] at hx
        exact (by decide : ∀ y ∈ "&gt;".data, y ≠ '\n' ∧ y ≠ '<') x hx
      · rw [if_neg h3] at hx
        by_cases h4 : c = '"'
        · rw [if_pos h4] at hx
          exact (by decide : ∀ y ∈ "&quot;".data, y ≠ '\n' ∧ y ≠ '<') x hx
        · rw [if_neg h4] at hx
          simp only [List.mem_singleton] at hx
          rw [hx]
          exact ⟨hc, h2⟩

/-! ## Lemmas about counting break elements -/

theorem countPat_cons_not_pre (c : Char) (l : List Char)
    (h : brPat.isPrefixOf (c :: l) = false) :
    countPat brPat (c :: l) = countPat brPat l := by
  simp [countPat, h]

theorem brPat_not_pre_of_ne_lt (c : Char) (l : List Char) (hc : c ≠ '<') :
    brPat.isPrefixOf (c :: l) = false := by
  rw [show brPat = ['<', 'b', 'r', '/', '>'] from rfl]
  simp only [List.isPrefixOf, Bool.and_eq_false_iff]
  left
  simp only [beq_eq_false_iff_ne]
  exact fun hh => hc hh.symm

theorem brPat_not_pre_of_ne_b (d : Char) (l : List Char) (hd : d ≠ 'b') :
    brPat.isPrefixOf ('<' :: d :: l) = false := by
  rw [show brPat = ['<', 'b', 'r', '/', '>'] from rfl]
  simp only [List.isPrefixOf, Bool.and_eq_false_iff]
  right; left
  simp only [beq_eq_false_iff_ne]
  exact fun hh => hd hh.symm

theorem countPat_br_emit (X : List Char) :
    countPat brPat (brPat ++ X) = 1 + countPat brPat X := by
  have h0 : brPat.isPrefixOf (brPat ++ X) = true := by
    rw [show brPat = ['<', 'b', 'r', '/', '>'] from rfl]
    simp [List.isPrefixOf]
  rw [show brPat ++ X = '<' :: 'b' :: 'r' :: '/' :: '>' :: X from rfl]
  rw [show brPat.isPrefixOf (brPat ++ X) =
        brPat.isPrefixOf ('<' :: 'b' :: 'r' :: '/' :: '>' :: X) from rfl] at h0
  have hb : brPat.isPrefixOf ('b' :: 'r' :: '/' :: '>' :: X) = false :=
    brPat_not_pre_of_ne_lt _ _ (by decide)
  have hr : brPat.isPrefixOf ('r' :: '/' :: '>' :: X) = false :=
    brPat_not_pre_of_ne_lt _ _ (by decide)
  have hs : brPat.isPrefixOf ('/' :: '>' :: X) = false :=
    brPat_not_pre_of_ne_lt _ _ (by decide)
  have hg : brPat.isPrefixOf ('>' :: X) = false :=
    brPat_not_pre_of_ne_lt _ _ (by decide)
  simp [countPat, h0, hb, hr, hs, hg]

theorem countPat_no_lt_skip :
    ∀ (m rest : List Char), (∀ c ∈ m, c ≠ '<') →
    countPat brPat (m ++ rest) = countPat brPat rest := by
  intro m
  induction m with
  | nil => intro rest _; rfl
  | cons c cs ih =>
      intro rest h
      have hc : c ≠ '<' := h c (by simp)
      rw [List.cons_append]
      rw [countPat_cons_not_pre c _ (brPat_not_pre_of_ne_lt c _ hc)]
      exact ih rest (fun x hx => h x (by simp [hx]))

theorem brSafe_skip :
    ∀ (m rest : List Char), brSafe m = true →
    countPat brPat (m ++ rest) = countPat brPat rest := by
  intro m
  induction m with
  | nil => intro rest _; rfl
  | cons c cs ih =>
      intro rest h
      by_cases hc : c = '<'
      · subst hc
        cases cs with
        | nil => exact absurd h (by decide)
        | cons d ds =>
            have h2 : (decide (d ≠ 'b') && brSafe (d :: ds)) = true := h
            simp only [Bool.and_eq_true, decide_eq_true_eq] at h2
            obtain ⟨hd, hsafe⟩ := h2
            rw [List.cons_append, List.cons_append]
            rw [countPat_cons_not_pre '<' _ (brPat_not_pre_of_ne_b d _ hd)]
            exact ih rest hsafe
      · have h' : brSafe cs = true := by simpa [brSafe, hc] using h
        rw [List.cons_append]
        rw [countPat_cons_not_pre c _ (brPat_not_pre_of_ne_lt c _ hc)]
        exact ih rest h'

theorem countPat_body :
    ∀ (l rest : List Char),
    countPat brPat (nlToBr (escape l) ++ rest) =
      countChar '\n' l + countPat brPat rest := by
  intro l
  induction l with
  | nil => intro rest; simp [escape, nlToBr, countChar]
  | cons c cs ih =>
      intro rest
      rw [escape_cons, nlToBr_append, List.append_assoc]
      by_cases hc : c = '\n'
      · subst hc
        have e1 : nlToBr (escChar '\n') = brPat := by decide
        rw [e1, countPat_br_emit, ih rest]
        simp [countChar]
        omega
      · have e1 : nlToBr (escChar c) = escChar c :=
          nlToBr_no_nl _ (fun x hx => (escChar_chunk c hc x hx).1)
        rw [e1, countPat_no_lt_skip (escChar c) _ (fun x hx => (escChar_chunk c hc x hx).2)]
        rw [ih rest]
        simp [countChar, hc]

theorem text_to_enml_data (t : String) :
    (text_to_enml t).data =
      ENML_PREAMBLE.data ++
        ("<en-note>".data ++ (nlToBr (escape t.data) ++ "</en-note>".data)) := by
  simp [text_to_enml, String.data_append, List.append_assoc]

theorem text_to_enml_br_count (t : String) :
    countPat brPat (text_to_enml t).data = countChar '\n' t.data := by
  rw [text_to_enml_data]
  rw [brSafe_skip _ _ (by decide)]
  rw [brSafe_skip _ _ (by decide)]
  rw [countPat_body]
  rw [show countPat brPat ("</en-note>".data) = 0 from by decide]
  omega

/-! ## Composition of the scanner across the document structure -/

theorem strip_header (rest : List Char) :
    stripGo (ENML_PREAMBLE.data ++ ("<en-note>".data ++ rest)) none =
      ' ' :: '\n' :: ' ' :: '\n' :: ' ' :: stripGo rest none := by
  rw [← List.append_assoc]
  rw [show ENML_PREAMBLE.data ++ "<en-note>".data =
        (ENML_PREAMBLE ++ "<en-note>").data from by simp [String.data_append]]
  have h2 : (stripRun ((ENML_PREAMBLE ++ "<en-note>").data) none).2 = none := by decide
  have h1 : (stripRun ((ENML_PREAMBLE ++ "<en-note>").data) none).1 =
      [' ', '\n', ' ', '\n', ' '] := by decide
  rw [stripRun_spec _ none rest h2, h1]
  rfl

theorem strip_body :
    ∀ (l rest : List Char), (∀ c ∈ l, c ≠ '<') →
    stripGo (nlToBr l ++ rest) none = l.map nlmap ++ stripGo rest none := by
  intro l
  induction l with
  | nil => intro rest _; simp [nlToBr]
  | cons c cs ih =>
      intro rest h
      by_cases hc : c = '\n'
      · subst hc
        rw [show nlToBr ('\n' :: cs) = "<br/>".data ++ nlToBr cs from by simp [nlToBr]]
        rw [List.append_assoc]
        have h2 : (stripRun ("<br/>".data) none).2 = none := by decide
        have h1 : (stripRun ("<br/>".data) none).1 = [' '] := by decide
        rw [stripRun_spec _ none _ h2, h1]
        rw [ih rest (fun x hx => h x (by simp [hx]))]
        simp [nlmap]
      · rw [nlToBr_cons_ne c cs hc, List.cons_append]
        rw [stripGo_cons_ne c _ (h c (by simp))]
        rw [ih rest (fun x hx => h x (by simp [hx]))]
        simp [nlmap, hc]

theorem mem_map_nlmap_ne_amp {l : List Char} (h : ∀ c ∈ l, c ≠ '&') :
    ∀ x ∈ l.map nlmap, x ≠ '&' := by
  intro x hx
  obtain ⟨a, ha, rfl⟩ := List.mem_map.mp hx
  by_cases hn : a = '\n'
  · subst hn; decide
  · simpa [nlmap, hn] using h a ha

theorem roundtrip_eq (t : String)
    (h : ∀ c ∈ t.data, c ≠ '&' ∧ c ≠ '<' ∧ c ≠ '>' ∧ c ≠ '"') :
    enml_to_text (text_to_enml t) = normalizeWS t := by
  unfold enml_to_text normalizeWS
  congr 1
  rw [text_to_enml_data]
  rw [escape_id_no_special t.data h]
  rw [strip_header]
  rw [strip_body t.data ("</en-note>".data) (fun c hc => (h c hc).2.1)]
  rw [show stripGo ("</en-note>".data) none = [' '] from by decide]
  rw [decode_id_no_amp _ ?hamp]
  case hamp =>
    intro c hc
    simp only [List.mem_cons, List.mem_append, List.mem_singleton,
      List.not_mem_nil, or_false] at hc
    rcases hc with rfl | rfl | rfl | rfl | rfl | hc | rfl
    · decide
    · decide
    · decide
    · decide
    · decide
    · exact mem_map_nlmap_ne_amp (fun x hx => (h x hx).1) c hc
    · decide
  rw [show collapseGo false
        (' ' :: '\n' :: ' ' :: '\n' :: ' ' :: (t.data.map nlmap ++ [' '])) =
        ' ' :: collapseGo true (t.data.map nlmap ++ [' ']) from by
      simp [collapseGo, isWs_space, isWs_nl]]
  rw [trimEnds_ws_cons _ _ isWs_space]
  have htr : trimEnds (collapseGo true (t.data.map nlmap ++ [' '])) =
      trimEnds (collapseGo true (t.data.map nlmap)) := by
    rcases collapse_trailing (t.data.map nlmap) true with hh | hh
    · rw [hh, trimEnds_append_ws _ _ isWs_space]
    · rw [hh]
  rw [htr, collapse_map_nl]
  rcases collapse_dichotomy t.data with hh | hh
  · rw [hh]
  · rw [hh, trimEnds_ws_cons _ _ isWs_space]

/-! ## Nesting invariance machinery -/

theorem rep_space_shift (n : Nat) (X : List Char) :
    List.replicate n ' ' ++ ' ' :: X = ' ' :: (List.replicate n ' ' ++ X) := by
  rw [List.append_cons, ← List.replicate_succ', List.replicate_succ, List.cons_append]

theorem nestDiv_strip :
    ∀ (n : Nat) (rest : List Char),
    stripGo ((nestDiv n).data ++ rest) none =
      (List.replicate n ' ' ++ "Nested".data ++ List.replicate n ' ') ++ stripGo rest none := by
  intro n
  induction n with
  | zero =>
      intro rest
      simp only [nestDiv, List.replicate_zero, List.nil_append, List.append_nil]
      have h2 : (stripRun ("Nested".data) none).2 = none := by decide
      have h1 : (stripRun ("Nested".data) none).1 = "Nested".data := by decide
      rw [stripRun_spec _ none rest h2, h1]
  | succ n ih =>
      intro rest
      have hdata : (nestDiv (n + 1)).data =
          "<div>".data ++ ((nestDiv n).data ++ "</div>".data) := by
        simp [nestDiv, String.data_append]
      rw [hdata, List.append_assoc, List.append_assoc]
      have h2 : (stripRun ("<div>".data) none).2 = none := by decide
      have h1 : (stripRun ("<div>".data) none).1 = [' '] := by decide
      rw [stripRun_spec _ none _ h2, h1]
      rw [ih ("</div>".data ++ rest)]
      have h2' : (stripRun ("</div>".data) none).2 = none := by decide
      have h1' : (stripRun ("</div>".data) none).1 = [' '] := by decide
      rw [stripRun_spec _ none rest h2', h1']
      simp only [List.replicate_succ, List.cons_append, List.append_assoc,
        rep_space_shift, List.singleton_append, List.nil_append]

theorem collapse_nonws_append_true (m X : List Char)
    (h : ∀ c ∈ m, isWs c = false) (hne : m ≠ []) :
    collapseGo true (m ++ X) = m ++ collapseGo false X := by
  cases m with
  | nil => exact absurd rfl hne
  | cons c cs =>
      have hc := h c (by simp)
      rw [List.cons_append]
      rw [show collapseGo true (c :: (cs ++ X)) = c :: collapseGo false (cs ++ X) from by
        simp [collapseGo, hc]]
      rw [collapse_nonws_append cs X (fun x hx => h x (by simp [hx]))]
      rfl

theorem collapse_rep_space (n : Nat) :
    collapseGo false (List.replicate n ' ' ++ [' ']) = [' '] := by
  rw [← List.replicate_succ', List.replicate_succ]
  rw [show collapseGo false (' ' :: List.replicate n ' ') =
        ' ' :: collapseGo true (List.replicate n ' ') from by
    simp [collapseGo, isWs_space]]
  have h := collapse_true_rep n []
  simp only [List.append_nil] at h
  rw [h]
  rfl

/-! ## Whitespace-normal form: the shape of collapsed output -/

theorem collapse_true_head (l : List Char) :
    firstNonWsB (collapseGo true l) = true := by
  induction l with
  | nil => rfl
  | cons c cs ih =>
      by_cases hw : isWs c = true
      · simpa [collapseGo, hw] using ih
      · simp [collapseGo, hw, firstNonWsB]

theorem wsNorm_one (c : Char) (h1 : isWs c = false ∨ c = ' ') : wsNorm [c] = true := by
  rcases h1 with h | h
  · simp [wsNorm, h]
  · simp [wsNorm, h]

theorem wsNorm_two (c d : Char) (ds : List Char)
    (h1 : isWs c = false ∨ c = ' ')
    (h2 : isWs c = false ∨ isWs d = false)
    (h3 : wsNorm (d :: ds) = true) : wsNorm (c :: d :: ds) = true := by
  have hA : (!isWs c || (c == ' ')) = true := by
    rcases h1 with h | h
    · simp [h]
    · simp [h]
  have hB : (isWs c && isWs d) = false := by
    rcases h2 with h | h
    · simp [h]
    · simp [h]
  simp [wsNorm, hA, hB, h3]

theorem wsNorm_tail (c : Char) (l : List Char) (h : wsNorm (c :: l) = true) :
    wsNorm l = true := by
  cases l with
  | nil => rfl
  | cons d ds =>
      simp only [wsNorm, Bool.and_eq_true] at h
      exact h.2

theorem wsNorm_head_space (c : Char) (l : List Char)
    (h : wsNorm (c :: l) = true) (hw : isWs c = true) : c = ' ' := by
  have hA : (!isWs c || (c == ' ')) = true := by
    cases l with
    | nil => simpa [wsNorm] using h
    | cons d ds =>
        simp only [wsNorm, Bool.and_eq_true] at h
        exact h.1.1
  rw [hw] at hA
  simpa using hA

theorem wsNorm_adj (c d : Char) (ds : List Char)
    (h : wsNorm (c :: d :: ds) = true) (hw : isWs c = true) : isWs d = false := by
  simp only [wsNorm, Bool.and_eq_true] at h
  have hB := h.1.2
  rw [hw] at hB
  simpa using hB

theorem wsNorm_collapse : ∀ (l : List Char) (b : Bool), wsNorm (collapseGo b l) = true := by
  intro l
  induction l with
  | nil => intro b; rfl
  | cons c cs ih =>
      intro b
      by_cases hw : isWs c = true
      · cases b
        · rw [show collapseGo false (c :: cs) = ' ' :: collapseGo true cs from by
            simp [collapseGo, hw]]
          cases hX : collapseGo true cs with
          | nil => exact wsNorm_one ' ' (Or.inr rfl)
          | cons d ds =>
              have hhead := collapse_true_head cs
              rw [hX] at hhead
              have hd : isWs d = false := by simpa [firstNonWsB] using hhead
              have h3 : wsNorm (d :: ds) = true := by rw [← hX]; exact ih true
              exact wsNorm_two ' ' d ds (Or.inr rfl) (Or.inr hd) h3
        · rw [show collapseGo true (c :: cs) = collapseGo true cs from by
            simp [collapseGo, hw]]
          exact ih true
      · have hwf : isWs c = false := by revert hw; cases isWs c <;> simp
        rw [show collapseGo b (c :: cs) = c :: collapseGo false cs from by
          simp [collapseGo, hwf]]
        cases hX : collapseGo false cs with
        | nil => exact wsNorm_one c (Or.inl hwf)
        | cons d ds =>
            have h3 : wsNorm (d :: ds) = true := by rw [← hX]; exact ih false
            exact wsNorm_two c d ds (Or.inl hwf) (Or.inl hwf) h3

theorem firstNonWs_dropWhile (l : List Char) :
    firstNonWsB (l.dropWhile isWs) = true := by
  induction l with
  | nil => rfl
  | cons c cs ih =>
      by_cases hw : isWs c = true
      · simpa [List.dropWhile, hw] using ih
      · have hwf : isWs c = false := by revert hw; cases isWs c <;> simp
        simp [List.dropWhile, hwf, firstNonWsB]

theorem wsNorm_dropWhile (l : List Char) (h : wsNorm l = true) :
    wsNorm (l.dropWhile isWs) = true := by
  induction l with
  | nil => exact h
  | cons c cs ih =>
      by_cases hw : isWs c = true
      · simp only [List.dropWhile, hw]
        exact ih (wsNorm_tail _ _ h)
      · have hwf : isWs c = false := by revert hw; cases isWs c <;> simp
        simpa [List.dropWhile, hwf] using h

theorem wsNorm_trimR : ∀ l : List Char, wsNorm l = true → wsNorm (trimR l) = true := by
  intro l
  induction l with
  | nil => intro h; exact h
  | cons c cs ih =>
      intro h
      by_cases h0 : trimR cs = []
      · by_cases hw : isWs c = true
        · simp [trimR, h0, hw, wsNorm]
        · have hwf : isWs c = false := by revert hw; cases isWs c <;> simp
          rw [show trimR (c :: cs) = [c] from by simp [trimR, h0, hwf]]
          exact wsNorm_one c (Or.inl hwf)
      · rw [show trimR (c :: cs) = c :: trimR cs from by simp [trimR, h0]]
        have htail : wsNorm (trimR cs) = true := ih (wsNorm_tail _ _ h)
        cases cs with
        | nil => exact absurd (rfl : trimR ([] : List Char) = []) h0
        | cons e es =>
            have hstep : trimR (e :: es) = e :: trimR es := by
              by_cases h1 : trimR es = []
              · by_cases hwe : isWs e = true
                · exact absurd (by simp [trimR, h1, hwe]) h0
                · simp [trimR, h1, hwe]
              · simp [trimR, h1]
            rw [hstep]
            rw [hstep] at htail
            have hA : isWs c = false ∨ c = ' ' := by
              by_cases hwc : isWs c = true
              · exact Or.inr (wsNorm_head_space c (e :: es) h hwc)
              · exact Or.inl (by revert hwc; cases isWs c <;> simp)
            have hadj : isWs c = false ∨ isWs e = false := by
              by_cases hwc : isWs c = true
              · exact Or.inr (wsNorm_adj c e es h hwc)
              · exact Or.inl (by revert hwc; cases isWs c <;> simp)
            exact wsNorm_two c e (trimR es) hA hadj htail

theorem collapse_id_of_wsNorm :
    ∀ (l : List Char) (b : Bool), wsNorm l = true →
    (b = true → firstNonWsB l = true) → collapseGo b l = l := by
  intro l
  induction l with
  | nil => intro b _ _; rfl
  | cons c cs ih =>
      intro b hn hb
      by_cases hw : isWs c = true
      · have hb' : b = false := by
          cases b
          · rfl
          · exfalso
            have := hb rfl
            simp [firstNonWsB, hw] at this
        subst hb'
        have hsp : c = ' ' := wsNorm_head_space c cs hn hw
        subst hsp
        cases cs with
        | nil => decide
        | cons d ds =>
            have hd : isWs d = false := wsNorm_adj ' ' d ds hn isWs_space
            rw [show collapseGo false (' ' :: d :: ds) = ' ' :: collapseGo true (d :: ds) from by
              simp [collapseGo, isWs_space]]
            congr 1
            exact ih true (wsNorm_tail _ _ hn) (fun _ => by simp [firstNonWsB, hd])
      · have hwf : isWs c = false := by revert hw; cases isWs c <;> simp
        rw [show collapseGo b (c :: cs) = c :: collapseGo false cs from by
          simp [collapseGo, hwf]]
        congr 1
        exact ih false (wsNorm_tail _ _ hn) (fun hh => absurd hh (by decide))

theorem enml_to_text_fixed (s : String)
    (hlt : ∀ c ∈ s.data, c ≠ '<')
    (hamp : ∀ c ∈ s.data, c ≠ '&')
    (hnorm : wsNorm s.data = true)
    (htrim : trimEnds s.data = s.data) : enml_to_text s = s := by
  unfold enml_to_text
  rw [strip_id_no_lt s.data hlt, decode_id_no_amp s.data hamp]
  rw [collapse_id_of_wsNorm s.data false hnorm (fun hh => absurd hh (by decide))]
  rw [htrim]

theorem idem_of_clean (x : String)
    (h : ∀ c ∈ (enml_to_text x).data, c ≠ '<' ∧ c ≠ '&') :
    enml_to_text (enml_to_text x) = enml_to_text x := by
  apply enml_to_text_fixed
  · exact fun c hc => (h c hc).1
  · exact fun c hc => (h c hc).2
  · exact wsNorm_dropWhile _ (wsNorm_trimR _ (wsNorm_collapse _ false))
  · exact trimEnds_idem _

theorem tagfree_passthrough (s : String) (h : ∀ c ∈ s.data, c ≠ '<' ∧ c ≠ '&') :
    enml_to_text s = normalizeWS s := by
  unfold enml_to_text normalizeWS
  rw [strip_id_no_lt s.data (fun c hc => (h c hc).1)]
  rw [decode_id_no_amp s.data (fun c hc => (h c hc).2)]

theorem nested_doc_text (n : Nat) : enml_to_text (nestedDoc n) = "Nested" := by
  unfold enml_to_text
  have hdata : (nestedDoc n).data =
      "<en-note>".data ++ ((nestDiv n).data ++ "</en-note>".data) := by
    simp [nestedDoc, String.data_append]
  rw [hdata]
  have h2 : (stripRun ("<en-note>".data) none).2 = none := by decide
  have h1 : (stripRun ("<en-note>".data) none).1 = [' '] := by decide
  rw [stripRun_spec _ none _ h2, h1]
  rw [nestDiv_strip n ("</en-note>".data)]
  rw [show stripGo ("</en-note>".data) none = [' '] from by decide]
  rw [decode_id_no_amp _ ?hamp]
  case hamp =>
    intro c hc
    have hrep : ∀ x ∈ List.replicate n ' ', x ≠ '&' := by
      intro x hx
      rw [List.eq_of_mem_replicate hx]
      decide
    have hN : ∀ x ∈ "Nested".data, x ≠ '&' := by decide
    have hsp : ∀ x ∈ ([' '] : List Char), x ≠ '&' := by decide
    rcases List.mem_append.mp hc with h1 | h1
    · exact hsp c h1
    · rcases List.mem_append.mp h1 with h2 | h2
      · rcases List.mem_append.mp h2 with h3 | h3
        · rcases List.mem_append.mp h3 with h4 | h4
          · exact hrep c h4
          · exact hN c h4
        · exact hrep c h3
      · exact hsp c h2
  rw [List.singleton_append, List.append_assoc, List.append_assoc]
  rw [show collapseGo false
        (' ' :: (List.replicate n ' ' ++ ("Nested".data ++ (List.replicate n ' ' ++ [' '])))) =
        ' ' :: collapseGo true
          (List.replicate n ' ' ++ ("Nested".data ++ (List.replicate n ' ' ++ [' ']))) from by
    simp [collapseGo, isWs_space]]
  rw [collapse_true_rep]
  rw [collapse_nonws_append_true ("Nested".data) _ (by decide) (by decide)]
  rw [collapse_rep_space]
  rw [trimEnds_ws_cons _ _ isWs_space]
  rw [trimEnds_append_ws _ _ isWs_space]
  rw [show trimEnds ("Nested".data) = "Nested".data from by decide]

example : enml_to_text ("<en-note>Tom &amp; Jerry &lt;3</en-note>") = "Tom & Jerry <3" := by decide
example : enml_to_text ("<en-note><div><div><div>Nested</div></div></div></en-note>") = "Nested" := by decide
example : enml_to_text ("<en-note>Text    with    spaces</en-note>") = "Text with spaces" := by decide
example : enml_to_text ("<en-note></en-note>") = "" := by decide
example : text_to_enml ("Line 1\nLine 2") = ENML_PREAMBLE ++ "<en-note>Line 1<br/>Line 2</en-note>" := by decide
example : enml_to_markdown ("<en-note><b>Bold</b> <i>italic</i></en-note>") = "**Bold** *italic*" := by decide
example : containsSub ("- [ ]".data) (enml_to_markdown ("<en-note><en-todo/></en-note>")).data = true := by decide
example : enml_to_markdown ("<en-note><en-todo checked=\"true\"/></en-note>") = enml_to_markdown ("<en-note><en-todo/></en-note>") := by decide
example : containsSub ("[Example](https://example.com)".data) (enml_to_markdown ("<en-note><a href=\"https://example.com\">Example</a></en-note>")).data = true := by decide
example : containsSub ("[Media]".data) (enml_to_markdown ("<en-note><en-media type=\"image/png\"/></en-note>")).data = true := by decide
example : containsSub ("[Encrypted]".data) (enml_to_markdown ("<en-note><en-crypt>Encrypted content</en-crypt></en-note>")).data = true := by decide
example : containsSub ("_Underlined text_".data) (enml_to_markdown ("<en-note><u>Underlined text</u></en-note>")).data = true := by decide
example : enml_to_text (enml_to_text ("&lt;b&gt;")) = "" ∧ enml_to_text ("&lt;b&gt;") = "<b>" := by decide
example : _redact_sensitive_info ("Failed with token:S=123:ABC123XYZ") = "Failed with [REDACTED]" := by decide
example : _redact_sensitive_info ("Authentication failed: S=456:DEF456:1234567890") = "Authentication failed: [REDACTED]" := by decide
example : _redact_sensitive_info ("Invalid credentials with password:secret123") = "Invalid credentials with password: [REDACTED]" := by decide
example : _redact_sensitive_info ("Note not found") = "Note not found" := by decide
example : (handle_evernote_error (.notFound ("S=123:ABC"))).error = "Resource not found: S=123:ABC" := by decide
example : (handle_evernote_error (.user BAD_DATA_FORMAT (some "title"))).error = "Invalid data format" := by decide
example : (handle_evernote_error (.system RATE_LIMIT_REACHED "Rate limit exceeded")).error = "System error: Rate limit exceeded" := by decide
example : validate_limit 100 = Except.ok () := rfl
example : validate_limit 0 = Except.error "Limit must be at least 1" := rfl
example : validate_limit 251 = Except.error "Limit too large (max 250)" := rfl

/-! ## Claim theorems -/

/-- Claim C1: `enml_to_text` removes every tag regardless of name, decodes
the standard XML entities back to literal characters, collapses whitespace
runs to single spaces and strips leading/trailing whitespace; nesting depth
of block containers does not affect the output (proved for every depth), and
on `<en-note>Tom &amp; Jerry &lt;3</en-note>` the result is exactly
`Tom & Jerry <3`. -/
theorem c1_enml_to_text_spec :
    (∀ n : Nat, enml_to_text (nestedDoc n) = "Nested") ∧
    enml_to_text ("<en-note>Tom &amp; Jerry &lt;3</en-note>") = "Tom & Jerry <3" ∧
    enml_to_text ("<en-note>Text    with    spaces</en-note>") = "Text with spaces" ∧
    enml_to_text ("<en-note>Text  </en-note>") = "Text" ∧
    enml_to_text ("<en-note></en-note>") = "" :=
  ⟨nested_doc_text, by decide, by decide, by decide, by decide⟩

/-- Claim C2: `enml_to_markdown` rewrites bold/strong content to
`**content**`, italic/emphasis content to `*content*`, a hyperlink with
href and label to `[label](href)`, and a checklist marker to `- [ ]`,
with the checked and the unchecked checklist states both rendering as the
unchecked marker. -/
theorem c2_enml_to_markdown_rules :
    containsSub ("**Bold**".data)
      (enml_to_markdown ("<en-note><b>Bold</b> <i>italic</i></en-note>")).data = true ∧
    containsSub ("*italic*".data)
      (enml_to_markdown ("<en-note><b>Bold</b> <i>italic</i></en-note>")).data = true ∧
    containsSub ("**Strong text**".data)
      (enml_to_markdown ("<en-note><strong>Strong text</strong></en-note>")).data = true ∧
    containsSub ("*Emphasis text*".data)
      (enml_to_markdown ("<en-note><em>Emphasis text</em></en-note>")).data = true ∧
    containsSub ("[Example](https://example.com)".data)
      (enml_to_markdown
        ("<en-note><a href=\"https://example.com\">Example</a></en-note>")).data = true ∧
    containsSub ("- [ ]".data)
      (enml_to_markdown ("<en-note><en-todo/></en-note>")).data = true ∧
    containsSub ("- [ ]".data)
      (enml_to_markdown ("<en-note><en-todo checked=\"true\"/></en-note>")).data = true ∧
    enml_to_markdown ("<en-note><en-todo checked=\"true\"/></en-note>") =
      enml_to_markdown ("<en-note><en-todo/></en-note>") := by
  decide

/-- Claim C3: for every input text, including the empty string, the output
of `text_to_enml` contains the fixed XML declaration, contains the doctype
preamble, and begins/ends with the root element enclosure: the document is
the preamble, the opening root tag, a body, and the closing root tag, which
is also its suffix. -/
theorem c3_text_to_enml_structure (t : String) :
    XML_DECL.data <+: (text_to_enml t).data ∧
    "<!DOCTYPE en-note".data <:+: (text_to_enml t).data ∧
    "</en-note>".data <:+ (text_to_enml t).data ∧
    ∃ body : String, text_to_enml t =
      ENML_PREAMBLE ++ "<en-note>" ++ body ++ "</en-note>" := by
  have hdata := text_to_enml_data t
  refine ⟨?_, ?_, ?_, String.mk (nlToBr (escape t.data)), rfl⟩
  · refine ⟨"\n".data ++ (DOCTYPE_DECL.data ++ ("\n".data ++
      ("<en-note>".data ++ (nlToBr (escape t.data) ++ "</en-note>".data)))), ?_⟩
    rw [hdata, show ENML_PREAMBLE.data =
      XML_DECL.data ++ ("\n".data ++ (DOCTYPE_DECL.data ++ "\n".data)) from by decide]
    simp only [List.append_assoc]
  · refine ⟨XML_DECL.data ++ "\n".data,
      " SYSTEM \"http://xml.evernote.com/pub/enml2.dtd\">".data ++ ("\n".data ++
        ("<en-note>".data ++ (nlToBr (escape t.data) ++ "</en-note>".data))), ?_⟩
    rw [hdata, show ENML_PREAMBLE.data =
      (XML_DECL.data ++ "\n".data) ++ ("<!DOCTYPE en-note".data ++
        (" SYSTEM \"http://xml.evernote.com/pub/enml2.dtd\">".data ++ "\n".data))
      from by decide]
    simp only [List.append_assoc]
  · refine ⟨ENML_PREAMBLE.data ++ ("<en-note>".data ++ nlToBr (escape t.data)), ?_⟩
    rw [hdata]
    simp only [List.append_assoc]

/-- Claim C4: every newline boundary in the input of `text_to_enml` becomes
exactly one break element — the number of `<br/>` occurrences in the output
equals the number of newline characters in the input, for every input, with
consecutive newlines not merged; and `Line 1\nLine 2` yields output
containing `Line 1<br/>Line 2`. -/
theorem c4_newline_to_br :
    (∀ t : String,
      countPat ("<br/>".data) (text_to_enml t).data = countChar '\n' t.data) ∧
    containsSub ("Line 1<br/>Line 2".data) (text_to_enml ("Line 1\nLine 2")).data = true := by
  constructor
  · intro t
    rw [show "<br/>".data = brPat from rfl]
    exact text_to_enml_br_count t
  · decide

/-- Claim C5: for every plain-text string without the markup-special
characters, converting to markup and back to text yields a string containing
the whitespace-normalized original as a substring (here in fact as the whole
string). -/
theorem c5_roundtrip_containment (t : String)
    (h : ∀ c ∈ t.data, c ≠ '&' ∧ c ≠ '<' ∧ c ≠ '>' ∧ c ≠ '"') :
    (normalizeWS t).data <:+: (enml_to_text (text_to_enml t)).data := by
  rw [roundtrip_eq t h]

/-- Witness for C5 at the concrete input of the repository's round-trip
test. -/
theorem c5_roundtrip_containment_witness :
    (normalizeWS ("Hello world")).data <:+:
      (enml_to_text (text_to_enml ("Hello world"))).data :=
  c5_roundtrip_containment ("Hello world") (by decide)

/-- Counterexample to claim C6 as stated: `enml_to_text` is not idempotent
on every input, because entity decoding can manufacture new tags — on
`&lt;b&gt;` the first application yields `<b>`, which the second application
strips to the empty string. -/
theorem c6_idempotence_counterexample :
    ¬ (enml_to_text (enml_to_text ("&lt;b&gt;")) = enml_to_text ("&lt;b&gt;")) := by
  decide

/-- Claim C6 (amended): `enml_to_text` is idempotent on every input whose
single-application output contains no tag-opening character and no
entity-introducing ampersand — then the output really has nothing further to
strip or decode. -/
theorem c6_idempotent_on_clean_output (x : String)
    (h : ∀ c ∈ (enml_to_text x).data, c ≠ '<' ∧ c ≠ '&') :
    enml_to_text (enml_to_text x) = enml_to_text x :=
  idem_of_clean x h

/-- Witness for the amended C6 at a concrete document. -/
theorem c6_idempotent_on_clean_output_witness :
    enml_to_text (enml_to_text ("<en-note>hi</en-note>")) =
      enml_to_text ("<en-note>hi</en-note>") :=
  c6_idempotent_on_clean_output ("<en-note>hi</en-note>") (by decide)

/-- Claim C7: the converters are total functions returning best-effort
results on any input — tag-free and ampersand-free input passes through
`enml_to_text` up to whitespace normalization, and malformed or overlapping
tag fragments degrade to text extraction instead of failing. -/
theorem c7_total_best_effort :
    (∀ s : String, (∀ c ∈ s.data, c ≠ '<' ∧ c ≠ '&') →
      enml_to_text s = normalizeWS s) ∧
    enml_to_text ("<b>unclosed") = "unclosed" ∧
    enml_to_text ("<b>bold<i>overlap</b>text</i>") = "bold overlap text" ∧
    enml_to_markdown ("<b>unclosed") = "unclosed" ∧
    enml_to_markdown ("<b>bold<i>overlap</b>text</i>") = "**bold*overlap**text*" :=
  ⟨tagfree_passthrough, by decide, by decide, by decide, by decide⟩

/-- Witness for C7 at a concrete tag-free input. -/
theorem c7_total_best_effort_witness :
    enml_to_text ("plain  text here") = normalizeWS ("plain  text here") :=
  c7_total_best_effort.1 ("plain  text here") (by decide)

/-- Claim C8: `handle_evernote_error` always returns an envelope (it never
re-raises) whose `success` field is `False` and which carries an error
message string, with `error_code` present exactly in the user-level and
system-level service-exception branches. -/
theorem c8_error_envelope (e : EvernoteException) :
    (handle_evernote_error e).success = false ∧
    (handle_evernote_error e).error_code =
      (match e with
       | .user code _ => some code
       | .system code _ => some code
       | .notFound _ => none
       | .generic _ => none) := by
  cases e <;> exact ⟨rfl, rfl⟩

/-- Claim C9 evaluation at the failing input: the not-found branch of
`handle_evernote_error` interpolates the identifier without redaction, so an
auth-token-shaped identifier survives into the error message, even though
`_redact_sensitive_info` would have scrubbed it (as the generic branch
does). -/
theorem c9_notfound_branch_skips_redaction :
    (handle_evernote_error (EvernoteException.notFound ("S=123:ABC"))).error =
      "Resource not found: S=123:ABC" ∧
    containsSub ("S=123:ABC".data)
      ((handle_evernote_error (EvernoteException.notFound ("S=123:ABC"))).error).data = true ∧
    _redact_sensitive_info ("Resource not found: S=123:ABC") =
      "Resource not found: [REDACTED]" ∧
    (handle_evernote_error (EvernoteException.generic ("Failed with token:S=123:ABC"))).error =
      "Failed with [REDACTED]" := by
  refine ⟨rfl, by decide, by decide, by decide⟩

/-- Claim C10: `validate_limit` raises `ValidationError` exactly when the
limit is below 1 or above `MAX_LIMIT` = 250, and returns normally for every
limit in the inclusive range 1..250. -/
theorem c10_validate_limit (limit : Int) :
    ((∃ msg, validate_limit limit = Except.error msg) ↔ (limit < 1 ∨ limit > 250)) ∧
    (validate_limit limit = Except.ok () ↔ (1 ≤ limit ∧ limit ≤ 250)) := by
  unfold validate_limit MAX_LIMIT
  by_cases h1 : limit < 1
  · constructor
    · simp only [if_pos h1]
      constructor
      · intro _; exact Or.inl h1
      · intro _; exact ⟨_, rfl⟩
    · simp only [if_pos h1]
      constructor
      · intro hh; cases hh
      · intro hh; omega
  · by_cases h2 : limit > (250 : Int)
    · constructor
      · simp only [if_neg h1, if_pos h2]
        constructor
        · intro _; exact Or.inr h2
        · intro _; exact ⟨_, rfl⟩
      · simp only [if_neg h1, if_pos h2]
        constructor
        · intro hh; cases hh
        · intro hh; omega
    · constructor
      · simp only [if_neg h1, if_neg h2]
        constructor
        · intro ⟨msg, hmsg⟩; cases hmsg
        · intro hh; omega
      · simp only [if_neg h1, if_neg h2]
        constructor
        · intro _; omega
        · intro _; trivial

end EvernoteMcp
